import Mathlib

set_option maxHeartbeats 1000000

/-! Verification of the TrucoMaster game engine.

The definitions below are a shallow embedding of the TypeScript sources:
 - `src/utils/gameLogic.ts` (deck, power model, trick winner, truco ladder),
 - `src/components/Game.tsx` (hand resolution, betting state machine),
 - `src/services/geminiService.ts` (validation of the opponent decision).

Definitions whose names end in `Spec` are written from the specification
wording and are compared against the embedded source definitions. -/

/-- The four suits (`src/types.ts`, `enum Suit`). -/
inductive Suit
  | diamonds
  | spades
  | hearts
  | clubs
  deriving DecidableEq, Repr, Fintype

/-- The ten Truco ranks (`src/types.ts`, `enum Rank`, in declaration order). -/
inductive Rank
  | four
  | five
  | six
  | seven
  | queen
  | jack
  | king
  | ace
  | two
  | three
  deriving DecidableEq, Repr, Fintype

/-- A card (`src/types.ts`, `CardData`).  The `id` field is a UI correlation
key only (never read by the engine logic) and is omitted; the optional cached
`power`/`isManilha` fields are display hints, also never read by the engine. -/
structure CardData where
  suit : Suit
  rank : Rank
  deriving DecidableEq, Repr, Fintype

/-- The two sides, the TypeScript string union `'player' | 'ai'`. -/
inductive Who
  | player
  | ai
  deriving DecidableEq, Repr, Fintype

/-- Result of a trick, the union `'player' | 'ai' | 'draw'`. -/
inductive Winner
  | side (w : Who)
  | draw
  deriving DecidableEq, Repr, Fintype

/-- A played card (`src/types.ts`, `PlayedCard`); `faceDown?: boolean` with
`undefined` behaving as `false`. -/
structure PlayedCard where
  card : CardData
  player : Who
  faceDown : Bool
  deriving DecidableEq, Repr, Fintype

/-- `BASE_ORDER` from `src/utils/gameLogic.ts` (weakest to strongest). -/
def BASE_ORDER : List Rank :=
  [.four, .five, .six, .seven, .queen, .jack, .king, .ace, .two, .three]

/-- `SUIT_ORDER` from `src/utils/gameLogic.ts` (weakest to strongest manilha). -/
def SUIT_ORDER : List Suit := [.diamonds, .spades, .hearts, .clubs]

/-- `getManilhaRank` from `src/utils/gameLogic.ts`: next rank after the vira
in `BASE_ORDER`, wrapping around.  (`BASE_ORDER[nextIndex]` is always in
range in the source; `getD` supplies an unreachable default.) -/
def getManilhaRank (viraRank : Rank) : Rank :=
  let index := BASE_ORDER.indexOf viraRank
  let nextIndex := (index + 1) % BASE_ORDER.length
  BASE_ORDER.getD nextIndex Rank.four

/-- `calculatePower` from `src/utils/gameLogic.ts`. -/
def calculatePower (card : CardData) (vira : CardData) : Nat :=
  let manilhaRank := getManilhaRank vira.rank
  if card.rank = manilhaRank then 100 + SUIT_ORDER.indexOf card.suit
  else BASE_ORDER.indexOf card.rank

/-- The 40 cards built by `createDeck` in `src/utils/gameLogic.ts`, before the
random shuffle (the shuffle permutes and does not change the card multiset). -/
def createDeckCards : List CardData :=
  [Suit.diamonds, .spades, .hearts, .clubs].flatMap fun suit =>
    [Rank.four, .five, .six, .seven, .queen, .jack, .king, .ace, .two, .three].map fun rank =>
      { suit := suit, rank := rank }

/-- `determineWinner` from `src/utils/gameLogic.ts`.  Both played cards are
optional; a missing card yields `draw` (the safety guard on its first line). -/
def determineWinner (p1 p2 : Option PlayedCard) (vira : CardData) : Winner :=
  match p1, p2 with
  | some q1, some q2 =>
    if q1.faceDown && q2.faceDown then Winner.draw
    else if q1.faceDown then Winner.side q2.player
    else if q2.faceDown then Winner.side q1.player
    else
      let power1 := calculatePower q1.card vira
      let power2 := calculatePower q2.card vira
      if power2 < power1 then Winner.side q1.player
      else if power1 < power2 then Winner.side q2.player
      else Winner.draw
  | _, _ => Winner.draw

/-- `getAvailableTrucoAction` from `src/utils/gameLogic.ts`: the next rung of
the stake ladder, `none` past 12. -/
def getAvailableTrucoAction (current : Nat) : Option Nat :=
  if current = 1 then some 3
  else if current = 3 then some 6
  else if current = 6 then some 9
  else if current = 9 then some 12
  else none

/-- Spec-side index of a rank in the base order 4,5,6,7,Q,J,K,A,2,3. -/
def rankIndexSpec : Rank → Nat
  | .four => 0
  | .five => 1
  | .six => 2
  | .seven => 3
  | .queen => 4
  | .jack => 5
  | .king => 6
  | .ace => 7
  | .two => 8
  | .three => 9

/-- Spec-side suit index: diamonds 0, spades 1, hearts 2, clubs 3. -/
def suitIndexSpec : Suit → Nat
  | .diamonds => 0
  | .spades => 1
  | .hearts => 2
  | .clubs => 3

/-- Spec-side manilha rank: the rank immediately following the vira's rank in
the base order, cyclic (3 wraps to 4). -/
def manilhaRankSpec : Rank → Rank
  | .four => .five
  | .five => .six
  | .six => .seven
  | .seven => .queen
  | .queen => .jack
  | .jack => .king
  | .king => .ace
  | .ace => .two
  | .two => .three
  | .three => .four

/-- Spec-side trick resolution, written from the claim wording: a missing card
gives a draw; two face-down cards give a draw; with exactly one face-down card
the face-up side wins unconditionally; otherwise the strictly higher power
wins and equal powers draw. -/
def determineWinnerSpec (p1 p2 : Option PlayedCard) (vira : CardData) : Winner :=
  match p1, p2 with
  | none, _ => Winner.draw
  | _, none => Winner.draw
  | some a, some b =>
    if a.faceDown = true ∧ b.faceDown = true then Winner.draw
    else if a.faceDown = true ∧ b.faceDown = false then Winner.side b.player
    else if a.faceDown = false ∧ b.faceDown = true then Winner.side a.player
    else if calculatePower b.card vira < calculatePower a.card vira then Winner.side a.player
    else if calculatePower a.card vira < calculatePower b.card vira then Winner.side b.player
    else Winner.draw

/-- Claim C1: `determineWinner` matches the reference definition: for every
pair of played cards and every vira, if both cards are face-down the result is
a draw; if exactly one is face-down the face-up side wins regardless of
powers; otherwise the strictly higher `calculatePower` wins and equal powers
draw; and a missing played card yields a draw rather than an error. -/
theorem trickWinnerMatchesSpec :
    ∀ (p1 p2 : Option PlayedCard) (vira : CardData),
      determineWinner p1 p2 vira = determineWinnerSpec p1 p2 vira := by
  intro p1 p2 vira
  match p1, p2 with
  | none, none => rfl
  | none, some b => rfl
  | some a, none => rfl
  | some a, some b =>
    obtain ⟨c1, w1, f1⟩ := a
    obtain ⟨c2, w2, f2⟩ := b
    cases f1 <;> cases f2 <;>
      simp [determineWinner, determineWinnerSpec]

/-- Claim C3: for every card and vira, `calculatePower` is the total function
given by the base-order index (0..9) for non-manilha ranks and 100 plus the
suit index (diamonds 0 .. clubs 3) for the manilha rank; exactly 4 of the 40
deck cards have power at least 100 for any vira; and `getManilhaRank` is the
total cyclic successor in the base order, with `getManilhaRank 3 = 4`. -/
theorem powerModelMatchesSpec :
    (∀ c v : CardData,
       calculatePower c v =
         if c.rank = manilhaRankSpec v.rank then 100 + suitIndexSpec c.suit
         else rankIndexSpec c.rank) ∧
    (∀ c v : CardData, c.rank ≠ manilhaRankSpec v.rank → calculatePower c v ≤ 9) ∧
    (∀ c v : CardData, c.rank = manilhaRankSpec v.rank →
       100 ≤ calculatePower c v ∧ calculatePower c v ≤ 103) ∧
    (∀ v : CardData,
       (createDeckCards.filter (fun c => 100 ≤ calculatePower c v)).length = 4) ∧
    (∀ r : Rank, getManilhaRank r = manilhaRankSpec r) ∧
    getManilhaRank Rank.three = Rank.four := by
  refine ⟨by decide, by decide, by decide, by decide, by decide, by decide⟩

/-- Witness for C3: a concrete non-manilha card has power at most 9
(rank 7 against a vira of rank 4, whose manilha rank is 5). -/
theorem powerModelMatchesSpec_witness :
    calculatePower ⟨Suit.hearts, Rank.seven⟩ ⟨Suit.clubs, Rank.four⟩ ≤ 9 :=
  powerModelMatchesSpec.2.1 ⟨Suit.hearts, Rank.seven⟩ ⟨Suit.clubs, Rank.four⟩ (by decide)

/-- `GamePhase` from `src/types.ts`. -/
inductive GamePhase
  | MENU
  | DEALING
  | PLAYER_TURN
  | AI_THINKING
  | TRUCO_PROPOSAL_PLAYER
  | TRUCO_PROPOSAL_AI
  | ROUND_RESULT
  | GAME_OVER
  deriving DecidableEq, Repr, Fintype

/-- The betting-relevant projection of `GameState` (`src/types.ts`): the
cumulative scores, the stake of the current hand, the last raiser, the engine
phase and whose turn it is.  Cards and trick bookkeeping are modelled
separately (`TrickState`, `PlayState`) where a claim needs them. -/
structure GS where
  scorePlayer : Nat
  scoreAI : Nat
  currentStakes : Nat
  lastTrucoPlayer : Option Who
  phase : GamePhase
  turn : Who
  deriving DecidableEq, Repr

/-- `MAX_SCORE` from `src/components/Game.tsx`. -/
def MAX_SCORE : Nat := 12

/-- `resolveHand` from `src/components/Game.tsx` (state-update part): award
`currentStakes` to the winning side and move to `GAME_OVER` when a score
reaches `MAX_SCORE`, else to `DEALING`.  The argument is a `Winner` because
`checkHandWinner` can at runtime pass the string `'draw'` (all-draw hand),
which matches neither side and awards nothing. -/
def resolveHand (winner : Winner) (s : GS) : GS :=
  let points := s.currentStakes
  let newScoreP := if winner = Winner.side Who.player then s.scorePlayer + points else s.scorePlayer
  let newScoreAI := if winner = Winner.side Who.ai then s.scoreAI + points else s.scoreAI
  if MAX_SCORE ≤ newScoreP ∨ MAX_SCORE ≤ newScoreAI then
    { s with scorePlayer := newScoreP, scoreAI := newScoreAI, phase := GamePhase.GAME_OVER }
  else
    { s with scorePlayer := newScoreP, scoreAI := newScoreAI, phase := GamePhase.DEALING }

/-- `startNewHand` from `src/components/Game.tsx`, projected to `GS`: reset
the stake to 1 and the last raiser, enter `PLAYER_TURN`, lead side by score
parity. -/
def startNewHand (s : GS) : GS :=
  { s with currentStakes := 1, lastTrucoPlayer := none,
           phase := GamePhase.PLAYER_TURN,
           turn := if (s.scorePlayer + s.scoreAI) % 2 = 0 then Who.player else Who.ai }

/-- `checkHandWinner` from `src/components/Game.tsx`: decide whether the hand
is over given `roundWinners` (entry `i` is trick `i+1`'s result, `none` if
not yet played) and `currentRound` (already incremented past the resolved
trick).  Returns the value passed to `resolveHand`, `none` when the hand
continues.  In the all-draw case the JavaScript expression
`roundWinners[2] || roundWinners[1]` evaluates to the truthy string `'draw'`,
so the function can return `some Winner.draw`. -/
def checkHandWinner (roundWinners : List (Option Winner)) (currentRound : Nat) :
    Option Winner :=
  let wins := roundWinners.filter (fun w => w.isSome)
  if wins.length = 0 then none
  else
    let pWins := (wins.filter (fun w => w = some (Winner.side Who.player))).length
    let aiWins := (wins.filter (fun w => w = some (Winner.side Who.ai))).length
    let draws := (wins.filter (fun w => w = some Winner.draw)).length
    if pWins = 2 then some (Winner.side Who.player)
    else if aiWins = 2 then some (Winner.side Who.ai)
    else if 0 < draws then
      if roundWinners.getD 0 none = some Winner.draw then
        if (roundWinners.getD 1 none).isSome ∧ roundWinners.getD 1 none ≠ some Winner.draw then
          roundWinners.getD 1 none
        else if (roundWinners.getD 2 none).isSome then
          roundWinners.getD 2 none
        else none
      else
        if roundWinners.getD 1 none = some Winner.draw then roundWinners.getD 0 none
        else if roundWinners.getD 2 none = some Winner.draw then roundWinners.getD 0 none
        else none
    else if 3 < currentRound then
      if aiWins < pWins then some (Winner.side Who.player) else some (Winner.side Who.ai)
    else none

/-- Spec-side hand resolution over the three trick outcomes, written from the
claim wording in rule order: a side with two outright trick wins takes the
hand immediately; if trick 1 drew, the winner of trick 2 takes the hand (the
winner of trick 3 if trick 2 also drew; three draws are a push, represented
by `some Winner.draw` which awards no points); if trick 2 (or only trick 3)
drew after a decisive trick 1, the winner of trick 1 takes the hand;
otherwise the hand continues. -/
def checkHandWinnerSpec (r0 r1 r2 : Option Winner) : Option Winner :=
  let outright := fun (w : Who) =>
    ([r0, r1, r2].filter (fun r => r = some (Winner.side w))).length
  if 2 ≤ outright Who.player then some (Winner.side Who.player)
  else if 2 ≤ outright Who.ai then some (Winner.side Who.ai)
  else
    match r0 with
    | some Winner.draw =>
      match r1 with
      | some (Winner.side w) => some (Winner.side w)
      | some Winner.draw =>
        match r2 with
        | some (Winner.side w) => some (Winner.side w)
        | some Winner.draw => some Winner.draw
        | none => none
      | none => none
    | some (Winner.side w1) =>
      match r1 with
      | some Winner.draw => some (Winner.side w1)
      | some (Winner.side _) =>
        match r2 with
        | some Winner.draw => some (Winner.side w1)
        | _ => none
      | none => none
    | none => none

/-- Claim C2: on every reachable `roundWinners` configuration (tricks are
filled in order, and `currentRound` is one past the number of resolved
tricks), `checkHandWinner` follows the stated rule order: two outright trick
wins take the hand immediately, a draw in trick 1 defers to trick 2 (then
trick 3; three draws are a push), and a draw in trick 2 or only in trick 3
after a decisive trick 1 gives the hand to the trick 1 winner.  The push case
awards no points: `resolveHand` on `draw` leaves both scores unchanged and
deals the next hand. -/
theorem handRuleOrder :
    (∀ r0 r1 r2 : Option Winner,
       (r1.isSome → r0.isSome) → (r2.isSome → r1.isSome) →
       checkHandWinner [r0, r1, r2]
           (([r0, r1, r2].filter (fun w => w.isSome)).length + 1) =
         checkHandWinnerSpec r0 r1 r2) ∧
    (∀ s : GS, s.scorePlayer < 12 → s.scoreAI < 12 →
       resolveHand Winner.draw s = { s with phase := GamePhase.DEALING }) := by
  constructor
  · decide
  · intro s h1 h2
    simp only [resolveHand, MAX_SCORE]
    have : ¬ (12 ≤ s.scorePlayer ∨ 12 ≤ s.scoreAI) := by omega
    simp [this]

/-- Witness for C2: the all-draw hand is a push (`checkHandWinner` returns
`'draw'`) and `resolveHand` on it awards no points and deals a new hand. -/
theorem handRuleOrder_witness :
    checkHandWinner [some Winner.draw, some Winner.draw, some Winner.draw] 4 =
        checkHandWinnerSpec (some Winner.draw) (some Winner.draw) (some Winner.draw) ∧
    resolveHand Winner.draw
        { scorePlayer := 5, scoreAI := 7, currentStakes := 3,
          lastTrucoPlayer := none, phase := GamePhase.PLAYER_TURN, turn := Who.player } =
      { scorePlayer := 5, scoreAI := 7, currentStakes := 3,
        lastTrucoPlayer := none, phase := GamePhase.DEALING, turn := Who.player } :=
  ⟨handRuleOrder.1 (some Winner.draw) (some Winner.draw) (some Winner.draw)
      (by decide) (by decide),
   handRuleOrder.2 _ (by decide) (by decide)⟩

/-- `handlePlayerTruco` from `src/components/Game.tsx`: the human's propose
path.  Guards in source order: must be the player's turn in `PLAYER_TURN`;
the player must not be the last raiser; a next ladder rung must exist.  On
success the phase becomes `TRUCO_PROPOSAL_PLAYER` (stakes unchanged until the
opponent responds); `none` means the proposal was refused.  Note: there is no
check of `scorePlayer` here (nor on the Truco button, whose render guard is
`isPlayerTurn && lastTrucoPlayer !== 'player' && currentStakes < 12`). -/
def handlePlayerTruco (s : GS) : Option GS :=
  if s.phase ≠ GamePhase.PLAYER_TURN ∨ s.turn ≠ Who.player then none
  else if s.lastTrucoPlayer = some Who.player then none
  else match getAvailableTrucoAction s.currentStakes with
    | none => none
    | some _ => some { s with phase := GamePhase.TRUCO_PROPOSAL_PLAYER }

/-- The opponent's response to an outstanding proposal after
`handleAIResponseToTruco` maps a `PLAY` answer to a coin flip between
`ACCEPT` and `RUN`; `TRUCO` behaves as `RAISE` there. -/
inductive AIResp
  | accept
  | run
  | raise
  deriving DecidableEq, Repr

/-- `handleAIResponseToTruco` from `src/components/Game.tsx`, projected to
`GS`.  `value` is the rung the outstanding proposal asks for (both call sites
pass `getAvailableTrucoAction` of the stake current at proposal time).
Accept: stake becomes `value`, the player is recorded as last raiser.  Run:
`resolveHand('player')` at the still-unchanged (pre-raise) stake.  Raise with
a further rung: stake becomes `value` and the machine enters
`TRUCO_PROPOSAL_AI` with the computer as last raiser; raise without a further
rung degrades to accept. -/
def handleAIResponseToTruco (action : AIResp) (value : Nat) (s : GS) : GS :=
  match action with
  | .accept =>
    { s with currentStakes := value, lastTrucoPlayer := some Who.player,
             phase := GamePhase.PLAYER_TURN }
  | .run => resolveHand (Winner.side Who.player) s
  | .raise =>
    match getAvailableTrucoAction value with
    | some _ =>
      { s with currentStakes := value, phase := GamePhase.TRUCO_PROPOSAL_AI,
               lastTrucoPlayer := some Who.ai }
    | none =>
      { s with currentStakes := value, lastTrucoPlayer := some Who.player,
               phase := GamePhase.PLAYER_TURN }

/-- `handleAIProposeTruco` from `src/components/Game.tsx`: the computer's
propose path.  Only guard: a next rung must exist.  On success the phase
becomes `TRUCO_PROPOSAL_AI` and the turn passes to the player to respond.
Note: `lastTrucoPlayer` is neither checked nor set here. -/
def handleAIProposeTruco (s : GS) : Option GS :=
  match getAvailableTrucoAction s.currentStakes with
  | none => none
  | some _ => some { s with phase := GamePhase.TRUCO_PROPOSAL_AI, turn := Who.player }

/-- The human's response to the computer's proposal (`playerRespondToTruco`
buttons). -/
inductive PlayerResp
  | accept
  | run
  | raise
  deriving DecidableEq, Repr

/-- `playerRespondToTruco` from `src/components/Game.tsx`, projected to `GS`.
`pendingValue` is `getAvailableTrucoAction(currentStakes) || 3` as in source.
Accept: stake becomes the pending rung, the computer is recorded as last
raiser, turn passes to the computer.  Run: `resolveHand('ai')` at the
pre-raise stake.  Raise with a further rung: stake becomes the pending rung
and the machine enters `TRUCO_PROPOSAL_PLAYER`; raise without one is a
no-op. -/
def playerRespondToTruco (response : PlayerResp) (s : GS) : GS :=
  let pendingValue := (getAvailableTrucoAction s.currentStakes).getD 3
  match response with
  | .accept =>
    { s with currentStakes := pendingValue, lastTrucoPlayer := some Who.ai,
             phase := GamePhase.PLAYER_TURN, turn := Who.ai }
  | .run => resolveHand (Winner.side Who.ai) s
  | .raise =>
    match getAvailableTrucoAction pendingValue with
    | none => s
    | some _ =>
      { s with currentStakes := pendingValue, phase := GamePhase.TRUCO_PROPOSAL_PLAYER }

/-- The decision tag of `AIMoveResponse` (`src/types.ts`). -/
inductive AIAction
  | PLAY
  | TRUCO
  | ACCEPT
  | RUN
  | RAISE
  | FOLD
  deriving DecidableEq, Repr

/-- `AIMoveResponse` (`src/types.ts`): the untrusted decision returned by the
opponent collaborator.  `cardIndex` is an optional integer (it may be
missing, negative, or past the end of the hand). -/
structure AIMoveResponse where
  action : AIAction
  cardIndex : Option Int
  deriving DecidableEq, Repr

/-- The invalid-card-index test from `getAIMove` in
`src/services/geminiService.ts`:
`cardIndex === undefined || cardIndex < 0 || cardIndex >= ai.hand.length`. -/
def invalidCardIndex (cardIndex : Option Int) (handLength : Nat) : Bool :=
  match cardIndex with
  | none => true
  | some i => i < 0 || (handLength : Int) ≤ i

/-- The validation block of `getAIMove` in `src/services/geminiService.ts`
(lines after the model reply is parsed): a `PLAY` with an invalid card index
is coerced to index 0; then a `TRUCO`/`RAISE` with the computer's score at 11
or more is overridden to `ACCEPT` when responding to the player's proposal
(`phase === 'TRUCO_PROPOSAL_PLAYER'`), else to `PLAY` of card 0. -/
def validateAIMove (move : AIMoveResponse) (handLength : Nat) (scoreAI : Nat)
    (phase : GamePhase) : AIMoveResponse :=
  let move :=
    if move.action = AIAction.PLAY ∧ invalidCardIndex move.cardIndex handLength = true
    then { move with cardIndex := some 0 } else move
  if (move.action = AIAction.TRUCO ∨ move.action = AIAction.RAISE) ∧ 11 ≤ scoreAI then
    if phase = GamePhase.TRUCO_PROPOSAL_PLAYER then { move with action := AIAction.ACCEPT }
    else { action := AIAction.PLAY, cardIndex := some 0 }
  else move

/-- The card-play-relevant projection of `GameState`: the computer's hand,
the table, whose turn, and the phase. -/
structure PlayState where
  aiHand : List CardData
  tableCards : List PlayedCard
  turn : Who
  phase : GamePhase
  deriving DecidableEq, Repr

/-- `handleAIPlayCard` from `src/components/Game.tsx`: no-op when the table
already holds 2 cards; if `hand[index]` is missing (negative or too-large
index), fall back to playing the first card of the hand and dropping it
(`hand.slice(1)`); otherwise play and remove the indexed card.  The computer
always plays face-up.  `none` models the one unreachable corner where the
source would enqueue an `undefined` card (fallback on an empty hand). -/
def handleAIPlayCard (index : Int) (s : PlayState) : Option PlayState :=
  if 2 ≤ s.tableCards.length then some s
  else
    match (if index < 0 then none else s.aiHand[index.toNat]?) with
    | none =>
      match s.aiHand with
      | [] => none
      | c :: rest =>
        some { aiHand := rest,
               tableCards := s.tableCards ++ [⟨c, Who.ai, false⟩],
               turn := Who.player, phase := GamePhase.PLAYER_TURN }
    | some c =>
      some { aiHand := s.aiHand.eraseIdx index.toNat,
             tableCards := s.tableCards ++ [⟨c, Who.ai, false⟩],
             turn := Who.player, phase := GamePhase.PLAYER_TURN }

/-- One transition of the engine, projected to `GS`.  Each constructor names
the source trigger in `src/components/Game.tsx`; transient phases
(`AI_THINKING`, `ROUND_RESULT`) are collapsed into their enclosing
transitions, which start and end in `PLAYER_TURN`.
 - `playerCard`: `handlePlayerPlayCard` (turn passes to the computer).
 - `aiCard`: `runAITurn` + `handleAIPlayCard` (turn passes to the player).
 - `trickResolve`: `resolveTrick` (next turn set to the trick winner, or to
   the leader of the drawn trick: nondeterministic here since `GS` carries no
   cards).
 - `handComplete`: `checkHandWinner` firing `resolveHand` (any outcome,
   including the all-draw `'draw'`), and the computer's `FOLD`
   (`resolveHand('player')`).
 - `deal`: the `DEALING` effect calling `startNewHand`.
 - `playerTruco`: the Truco button calling `handlePlayerTruco`.
 - `aiRespond`: `handleAIResponseToTruco` with the proposed rung (always the
   next rung over the stake at proposal time, which is still current).
 - `aiPropose`: `runAITurn` + `handleAIProposeTruco`; the score guard is the
   validation in `getAIMove` (a `TRUCO`/`RAISE` at score 11 or more never
   reaches `handleAIProposeTruco`: it is overridden by `validateAIMove` on
   the model path and by the `scoreAI >= 11` check of `fallbackLogic`).
 - `playerRespond`: the Aceitar/Correr/Aumentar buttons. -/
inductive Step : GS → GS → Prop
  | playerCard (s : GS) (hph : s.phase = GamePhase.PLAYER_TURN) (ht : s.turn = Who.player) :
      Step s { s with turn := Who.ai }
  | aiCard (s : GS) (hph : s.phase = GamePhase.PLAYER_TURN) (ht : s.turn = Who.ai) :
      Step s { s with turn := Who.player, phase := GamePhase.PLAYER_TURN }
  | trickResolve (s : GS) (t : Who) (hph : s.phase = GamePhase.PLAYER_TURN) :
      Step s { s with turn := t, phase := GamePhase.PLAYER_TURN }
  | handComplete (s : GS) (w : Winner) (hph : s.phase = GamePhase.PLAYER_TURN) :
      Step s (resolveHand w s)
  | deal (s : GS) (hph : s.phase = GamePhase.DEALING) :
      Step s (startNewHand s)
  | playerTruco (s s' : GS) (h : handlePlayerTruco s = some s') :
      Step s s'
  | aiRespond (s : GS) (a : AIResp) (v : Nat)
      (hph : s.phase = GamePhase.TRUCO_PROPOSAL_PLAYER)
      (hv : getAvailableTrucoAction s.currentStakes = some v) :
      Step s (handleAIResponseToTruco a v s)
  | aiPropose (s s' : GS) (hph : s.phase = GamePhase.PLAYER_TURN) (ht : s.turn = Who.ai)
      (hscore : s.scoreAI < 11) (h : handleAIProposeTruco s = some s') :
      Step s s'
  | playerRespond (s : GS) (r : PlayerResp) (hph : s.phase = GamePhase.TRUCO_PROPOSAL_AI) :
      Step s (playerRespondToTruco r s)

/-- The initial `GameState` of the `Game` component (scores 0, stakes
`TrucoValue.NORMAL = 1`, no last raiser, phase `DEALING`). -/
def initGS : GS :=
  { scorePlayer := 0, scoreAI := 0, currentStakes := 1, lastTrucoPlayer := none,
    phase := GamePhase.DEALING, turn := Who.player }

/-- A game state reachable from the initial state. -/
def Reachable (s : GS) : Prop := Relation.ReflTransGen Step initGS s

/-- The stake values of the truco ladder. -/
def LadderVal (n : Nat) : Prop := n = 1 ∨ n = 3 ∨ n = 6 ∨ n = 9 ∨ n = 12

/-- Stake invariant: the stake is on the ladder, and while a proposal is
outstanding it is at most 9 (a proposal needed a next rung to exist). -/
def StakesInv (s : GS) : Prop :=
  LadderVal s.currentStakes ∧
  ((s.phase = GamePhase.TRUCO_PROPOSAL_PLAYER ∨ s.phase = GamePhase.TRUCO_PROPOSAL_AI) →
    s.currentStakes ≠ 12)

lemma gATA_ladder {c v : Nat} (h : getAvailableTrucoAction c = some v) :
    (c = 1 ∨ c = 3 ∨ c = 6 ∨ c = 9) ∧ (v = 3 ∨ v = 6 ∨ v = 9 ∨ v = 12) ∧ c < v := by
  unfold getAvailableTrucoAction at h
  split_ifs at h with h1 h2 h3 h4 <;> simp_all <;> omega

lemma resolveHand_fields (w : Winner) (s : GS) :
    (resolveHand w s).currentStakes = s.currentStakes ∧
    (resolveHand w s).lastTrucoPlayer = s.lastTrucoPlayer ∧
    (resolveHand w s).turn = s.turn ∧
    ((resolveHand w s).phase = GamePhase.DEALING ∨
     (resolveHand w s).phase = GamePhase.GAME_OVER) := by
  simp only [resolveHand]
  by_cases hc :
      MAX_SCORE ≤ (if w = Winner.side Who.player then s.scorePlayer + s.currentStakes
        else s.scorePlayer) ∨
      MAX_SCORE ≤ (if w = Winner.side Who.ai then s.scoreAI + s.currentStakes else s.scoreAI)
  · rw [if_pos hc]
    exact ⟨rfl, rfl, rfl, Or.inr rfl⟩
  · rw [if_neg hc]
    exact ⟨rfl, rfl, rfl, Or.inl rfl⟩

lemma handlePlayerTruco_some {s s' : GS} (h : handlePlayerTruco s = some s') :
    s.phase = GamePhase.PLAYER_TURN ∧ s.turn = Who.player ∧
    s.lastTrucoPlayer ≠ some Who.player ∧
    (getAvailableTrucoAction s.currentStakes).isSome = true ∧
    s' = { s with phase := GamePhase.TRUCO_PROPOSAL_PLAYER } := by
  unfold handlePlayerTruco at h
  by_cases h1 : s.phase ≠ GamePhase.PLAYER_TURN ∨ s.turn ≠ Who.player
  · simp [h1] at h
  · push_neg at h1
    by_cases h2 : s.lastTrucoPlayer = some Who.player
    · simp [h1.1, h1.2, h2] at h
    · have hcond : ¬(s.phase ≠ GamePhase.PLAYER_TURN ∨ s.turn ≠ Who.player) := by
        simp [h1.1, h1.2]
      rcases hg : getAvailableTrucoAction s.currentStakes with _ | v
      · simp [hcond, h2, hg] at h
      · rw [if_neg hcond, if_neg h2, hg] at h
        simp at h
        exact ⟨h1.1, h1.2, h2, by simp [hg], h.symm⟩

lemma handleAIProposeTruco_some {s s' : GS} (h : handleAIProposeTruco s = some s') :
    (getAvailableTrucoAction s.currentStakes).isSome = true ∧
    s' = { s with phase := GamePhase.TRUCO_PROPOSAL_AI, turn := Who.player } := by
  unfold handleAIProposeTruco at h
  rcases hg : getAvailableTrucoAction s.currentStakes with _ | v
  · simp [hg] at h
  · simp only [hg] at h
    simp at h
    exact ⟨by simp [hg], h.symm⟩

lemma step_stake_change {s s' : GS} (st : Step s s') (hinv : StakesInv s) :
    StakesInv s' ∧
    (s'.currentStakes = s.currentStakes ∨
     getAvailableTrucoAction s.currentStakes = some s'.currentStakes ∨
     (s.phase = GamePhase.DEALING ∧ s'.currentStakes = 1)) := by
  obtain ⟨hlad, htp⟩ := hinv
  cases st with
  | playerCard hph ht =>
    refine ⟨⟨hlad, ?_⟩, Or.inl rfl⟩
    intro hc
    simp [hph] at hc
  | aiCard hph ht =>
    refine ⟨⟨hlad, ?_⟩, Or.inl rfl⟩
    intro hc
    simp at hc
  | trickResolve t hph =>
    refine ⟨⟨hlad, ?_⟩, Or.inl rfl⟩
    intro hc
    simp at hc
  | handComplete w hph =>
    have hf := resolveHand_fields w s
    refine ⟨⟨hf.1 ▸ hlad, ?_⟩, Or.inl hf.1⟩
    intro hc
    rcases hf.2.2.2 with h | h <;> rw [h] at hc <;> simp at hc
  | deal hph =>
    exact ⟨⟨Or.inl rfl, by intro hc; simp [startNewHand] at hc⟩,
           Or.inr (Or.inr ⟨hph, rfl⟩)⟩
  | playerTruco _ h =>
    obtain ⟨hph, ht, hl, hg, hs⟩ := handlePlayerTruco_some h
    subst hs
    refine ⟨⟨hlad, ?_⟩, Or.inl rfl⟩
    intro _
    show s.currentStakes ≠ 12
    rcases Option.isSome_iff_exists.mp hg with ⟨v, hv⟩
    have := gATA_ladder hv
    omega
  | aiRespond a v hph hv =>
    have hgl := gATA_ladder hv
    cases a with
    | accept =>
      refine ⟨⟨?_, ?_⟩, Or.inr (Or.inl ?_)⟩
      · simp only [handleAIResponseToTruco, LadderVal]
        omega
      · intro hc
        simp [handleAIResponseToTruco] at hc
      · simpa [handleAIResponseToTruco] using hv
    | run =>
      have hf := resolveHand_fields (Winner.side Who.player) s
      refine ⟨⟨?_, ?_⟩, Or.inl ?_⟩
      · simpa only [handleAIResponseToTruco, hf.1] using hlad
      · intro hc
        rcases hf.2.2.2 with h | h <;>
          simp only [handleAIResponseToTruco] at hc <;> rw [h] at hc <;> simp at hc
      · simpa only [handleAIResponseToTruco] using hf.1
    | raise =>
      rcases hg2 : getAvailableTrucoAction v with _ | v2
      · refine ⟨⟨?_, ?_⟩, Or.inr (Or.inl ?_)⟩
        · simp only [handleAIResponseToTruco, hg2, LadderVal]
          omega
        · intro hc
          simp [handleAIResponseToTruco, hg2] at hc
        · simpa [handleAIResponseToTruco, hg2] using hv
      · have hgl2 := gATA_ladder hg2
        refine ⟨⟨?_, ?_⟩, Or.inr (Or.inl ?_)⟩
        · simp only [handleAIResponseToTruco, hg2, LadderVal]
          omega
        · intro _
          simp only [handleAIResponseToTruco, hg2]
          omega
        · simpa [handleAIResponseToTruco, hg2] using hv
  | aiPropose _ hph ht hsc h =>
    obtain ⟨hg, hs⟩ := handleAIProposeTruco_some h
    subst hs
    refine ⟨⟨hlad, ?_⟩, Or.inl rfl⟩
    intro _
    show s.currentStakes ≠ 12
    rcases Option.isSome_iff_exists.mp hg with ⟨v, hv⟩
    have := gATA_ladder hv
    omega
  | playerRespond r hph =>
    have hne : s.currentStakes ≠ 12 := htp (Or.inr hph)
    have hsl : s.currentStakes = 1 ∨ s.currentStakes = 3 ∨ s.currentStakes = 6 ∨
        s.currentStakes = 9 := by
      simp only [LadderVal] at hlad
      omega
    have hv : getAvailableTrucoAction s.currentStakes =
        some ((getAvailableTrucoAction s.currentStakes).getD 3) := by
      rcases hsl with h | h | h | h <;> rw [h] <;> rfl
    have hgl := gATA_ladder hv
    cases r with
    | accept =>
      refine ⟨⟨?_, ?_⟩, Or.inr (Or.inl ?_)⟩
      · simp only [playerRespondToTruco, LadderVal]
        omega
      · intro hc
        simp [playerRespondToTruco] at hc
      · simpa [playerRespondToTruco] using hv
    | run =>
      have hf := resolveHand_fields (Winner.side Who.ai) s
      refine ⟨⟨?_, ?_⟩, Or.inl ?_⟩
      · simpa only [playerRespondToTruco, hf.1] using hlad
      · intro hc
        rcases hf.2.2.2 with h | h <;>
          simp only [playerRespondToTruco] at hc <;> rw [h] at hc <;> simp at hc
      · simpa only [playerRespondToTruco] using hf.1
    | raise =>
      rcases hg2 : getAvailableTrucoAction ((getAvailableTrucoAction s.currentStakes).getD 3)
          with _ | v2
      · refine ⟨⟨?_, ?_⟩, Or.inl ?_⟩
        · simpa only [playerRespondToTruco, hg2] using hlad
        · simp only [playerRespondToTruco, hg2]
          intro _
          exact hne
        · simp only [playerRespondToTruco, hg2]
      · have hgl2 := gATA_ladder hg2
        refine ⟨⟨?_, ?_⟩, Or.inr (Or.inl ?_)⟩
        · simp only [playerRespondToTruco, hg2, LadderVal]
          omega
        · intro _
          simp only [playerRespondToTruco, hg2]
          omega
        · simpa [playerRespondToTruco, hg2] using hv

lemma reachable_StakesInv {s : GS} (h : Reachable s) : StakesInv s := by
  induction h with
  | refl =>
    refine ⟨Or.inl rfl, ?_⟩
    intro hc
    simp [initGS] at hc
  | tail hr st ih => exact (step_stake_change st ih).1

lemma resolveHand_scores (w : Winner) (s : GS) :
    (resolveHand w s).scorePlayer =
      (if w = Winner.side Who.player then s.scorePlayer + s.currentStakes
       else s.scorePlayer) ∧
    (resolveHand w s).scoreAI =
      (if w = Winner.side Who.ai then s.scoreAI + s.currentStakes else s.scoreAI) := by
  simp only [resolveHand]
  by_cases hc :
      MAX_SCORE ≤ (if w = Winner.side Who.player then s.scorePlayer + s.currentStakes
        else s.scorePlayer) ∨
      MAX_SCORE ≤ (if w = Winner.side Who.ai then s.scoreAI + s.currentStakes else s.scoreAI)
  · rw [if_pos hc]
    exact ⟨rfl, rfl⟩
  · rw [if_neg hc]
    exact ⟨rfl, rfl⟩

/-- Claim C5: `currentStakes` only moves upward along the ladder 1,3,6,9,12
within a hand: in every reachable state the stake is a ladder value; every
step either leaves the stake unchanged, moves it to exactly the next rung
computed by `getAvailableTrucoAction`, or resets it to 1 when a new hand is
dealt; the next rung is always strictly higher; and there is no rung above
12. -/
theorem stakesLadderInvariant :
    (∀ s : GS, Reachable s →
       s.currentStakes = 1 ∨ s.currentStakes = 3 ∨ s.currentStakes = 6 ∨
       s.currentStakes = 9 ∨ s.currentStakes = 12) ∧
    (∀ s s' : GS, Reachable s → Step s s' →
       s'.currentStakes = s.currentStakes ∨
       getAvailableTrucoAction s.currentStakes = some s'.currentStakes ∨
       (s.phase = GamePhase.DEALING ∧ s'.currentStakes = 1)) ∧
    (∀ c v : Nat, getAvailableTrucoAction c = some v → c < v) ∧
    getAvailableTrucoAction 12 = none ∧
    (∀ s : GS, (startNewHand s).currentStakes = 1) :=
  ⟨fun _ h => (reachable_StakesInv h).1,
   fun _ _ h st => (step_stake_change st (reachable_StakesInv h)).2,
   fun _ _ h => (gATA_ladder h).2.2,
   rfl,
   fun _ => rfl⟩

/-- Witness for C5 at the initial state and its dealing step. -/
theorem stakesLadderInvariant_witness :
    (initGS.currentStakes = 1 ∨ initGS.currentStakes = 3 ∨ initGS.currentStakes = 6 ∨
     initGS.currentStakes = 9 ∨ initGS.currentStakes = 12) ∧
    ((startNewHand initGS).currentStakes = initGS.currentStakes ∨
     getAvailableTrucoAction initGS.currentStakes = some (startNewHand initGS).currentStakes ∨
     (initGS.phase = GamePhase.DEALING ∧ (startNewHand initGS).currentStakes = 1)) ∧
    (1 : Nat) < 3 :=
  ⟨stakesLadderInvariant.1 initGS Relation.ReflTransGen.refl,
   stakesLadderInvariant.2.1 initGS (startNewHand initGS) Relation.ReflTransGen.refl
     (Step.deal initGS rfl),
   stakesLadderInvariant.2.2.1 1 3 rfl⟩

/-- Claim C6: when a hand completes with a winner, exactly `currentStakes`
points go to that side and the other side's score is unchanged; the machine
then enters `GAME_OVER` exactly when the updated score reaches 12 (and
`GAME_OVER` is terminal: no step leaves it), and otherwise enters `DEALING`,
from which the only step is dealing a new hand via `startNewHand`. -/
theorem handCompletionScoring :
    (∀ (w : Who) (s : GS), s.scorePlayer < 12 → s.scoreAI < 12 →
       ((resolveHand (Winner.side w) s).scorePlayer =
          if w = Who.player then s.scorePlayer + s.currentStakes else s.scorePlayer) ∧
       ((resolveHand (Winner.side w) s).scoreAI =
          if w = Who.ai then s.scoreAI + s.currentStakes else s.scoreAI) ∧
       ((resolveHand (Winner.side w) s).phase = GamePhase.GAME_OVER ↔
          12 ≤ (if w = Who.player then s.scorePlayer else s.scoreAI) + s.currentStakes) ∧
       ((resolveHand (Winner.side w) s).phase = GamePhase.DEALING ↔
          (if w = Who.player then s.scorePlayer else s.scoreAI) + s.currentStakes < 12)) ∧
    (∀ s s' : GS, s.phase = GamePhase.GAME_OVER → ¬ Step s s') ∧
    (∀ s s' : GS, s.phase = GamePhase.DEALING → Step s s' → s' = startNewHand s) := by
  refine ⟨?_, ?_, ?_⟩
  · intro w s h1 h2
    cases w with
    | player =>
      simp only [resolveHand, MAX_SCORE]
      split_ifs with hc <;> simp_all <;> omega
    | ai =>
      simp only [resolveHand, MAX_SCORE]
      split_ifs with hc <;> simp_all <;> omega
  · intro s s' hph st
    cases st with
    | playerCard hph2 ht => simp [hph] at hph2
    | aiCard hph2 ht => simp [hph] at hph2
    | trickResolve t hph2 => simp [hph] at hph2
    | handComplete w hph2 => simp [hph] at hph2
    | deal hph2 => simp [hph] at hph2
    | playerTruco _ h => have h2 := (handlePlayerTruco_some h).1; simp [hph] at h2
    | aiRespond a v hph2 hv => simp [hph] at hph2
    | aiPropose _ hph2 ht hsc h => simp [hph] at hph2
    | playerRespond r hph2 => simp [hph] at hph2
  · intro s s' hph st
    cases st with
    | playerCard hph2 ht => simp [hph] at hph2
    | aiCard hph2 ht => simp [hph] at hph2
    | trickResolve t hph2 => simp [hph] at hph2
    | handComplete w hph2 => simp [hph] at hph2
    | deal hph2 => rfl
    | playerTruco _ h => have h2 := (handlePlayerTruco_some h).1; simp [hph] at h2
    | aiRespond a v hph2 hv => simp [hph] at hph2
    | aiPropose _ hph2 ht hsc h => simp [hph] at hph2
    | playerRespond r hph2 => simp [hph] at hph2

/-- Witness for C6: winning a hand at 9 points with stake 3 brings the player
to 12, and a `GAME_OVER` state admits no step. -/
theorem handCompletionScoring_witness :
    ((resolveHand (Winner.side Who.player)
        { scorePlayer := 9, scoreAI := 4, currentStakes := 3, lastTrucoPlayer := none,
          phase := GamePhase.PLAYER_TURN, turn := Who.player }).scorePlayer =
      if Who.player = Who.player then 9 + 3 else 9) ∧
    ¬ Step { scorePlayer := 12, scoreAI := 4, currentStakes := 3, lastTrucoPlayer := none,
             phase := GamePhase.GAME_OVER, turn := Who.player } initGS :=
  ⟨(handCompletionScoring.1 Who.player
      { scorePlayer := 9, scoreAI := 4, currentStakes := 3, lastTrucoPlayer := none,
        phase := GamePhase.PLAYER_TURN, turn := Who.player } (by decide) (by decide)).1,
   handCompletionScoring.2.1 _ initGS rfl⟩

/-- Claim C8: running from an outstanding proposal ends the hand immediately
(`resolveHand` is called: the phase moves straight to `DEALING` or
`GAME_OVER`) and awards the opposing side exactly the stake that was current
before the proposal: proposing (either path) leaves `currentStakes`
unchanged, the run handlers award exactly `currentStakes`, and the proposed
rung is never equal to the awarded stake. -/
theorem runPaysPreRaiseStake :
    (∀ s s' : GS, handlePlayerTruco s = some s' → s'.currentStakes = s.currentStakes) ∧
    (∀ s s' : GS, handleAIProposeTruco s = some s' → s'.currentStakes = s.currentStakes) ∧
    (∀ (v : Nat) (s : GS),
       handleAIResponseToTruco AIResp.run v s = resolveHand (Winner.side Who.player) s ∧
       (handleAIResponseToTruco AIResp.run v s).scorePlayer =
         s.scorePlayer + s.currentStakes ∧
       (handleAIResponseToTruco AIResp.run v s).scoreAI = s.scoreAI ∧
       ((handleAIResponseToTruco AIResp.run v s).phase = GamePhase.DEALING ∨
        (handleAIResponseToTruco AIResp.run v s).phase = GamePhase.GAME_OVER)) ∧
    (∀ s : GS,
       playerRespondToTruco PlayerResp.run s = resolveHand (Winner.side Who.ai) s ∧
       (playerRespondToTruco PlayerResp.run s).scoreAI = s.scoreAI + s.currentStakes ∧
       (playerRespondToTruco PlayerResp.run s).scorePlayer = s.scorePlayer ∧
       ((playerRespondToTruco PlayerResp.run s).phase = GamePhase.DEALING ∨
        (playerRespondToTruco PlayerResp.run s).phase = GamePhase.GAME_OVER)) ∧
    (∀ c v : Nat, getAvailableTrucoAction c = some v → v ≠ c) := by
  refine ⟨?_, ?_, ?_, ?_, ?_⟩
  · intro s s' h
    rw [(handlePlayerTruco_some h).2.2.2.2]
  · intro s s' h
    rw [(handleAIProposeTruco_some h).2]
  · intro v s
    refine ⟨rfl, ?_, ?_, ?_⟩
    · rw [show handleAIResponseToTruco AIResp.run v s =
            resolveHand (Winner.side Who.player) s from rfl,
          (resolveHand_scores _ s).1]
      simp
    · rw [show handleAIResponseToTruco AIResp.run v s =
            resolveHand (Winner.side Who.player) s from rfl,
          (resolveHand_scores _ s).2]
      simp
    · exact (resolveHand_fields (Winner.side Who.player) s).2.2.2
  · intro s
    refine ⟨rfl, ?_, ?_, ?_⟩
    · rw [show playerRespondToTruco PlayerResp.run s =
            resolveHand (Winner.side Who.ai) s from rfl,
          (resolveHand_scores _ s).2]
      simp
    · rw [show playerRespondToTruco PlayerResp.run s =
            resolveHand (Winner.side Who.ai) s from rfl,
          (resolveHand_scores _ s).1]
      simp
    · exact (resolveHand_fields (Winner.side Who.ai) s).2.2.2
  · intro c v h
    have := gATA_ladder h
    omega

/-- Witness for C8: a concrete proposal leaves the stake at 1 and the
proposed rung 3 differs from it. -/
theorem runPaysPreRaiseStake_witness :
    ({ scorePlayer := 0, scoreAI := 0, currentStakes := 1, lastTrucoPlayer := none,
       phase := GamePhase.TRUCO_PROPOSAL_PLAYER, turn := Who.player } : GS).currentStakes =
      ({ scorePlayer := 0, scoreAI := 0, currentStakes := 1, lastTrucoPlayer := none,
         phase := GamePhase.PLAYER_TURN, turn := Who.player } : GS).currentStakes ∧
    (3 : Nat) ≠ 1 :=
  ⟨runPaysPreRaiseStake.1
     { scorePlayer := 0, scoreAI := 0, currentStakes := 1, lastTrucoPlayer := none,
       phase := GamePhase.PLAYER_TURN, turn := Who.player }
     { scorePlayer := 0, scoreAI := 0, currentStakes := 1, lastTrucoPlayer := none,
       phase := GamePhase.TRUCO_PROPOSAL_PLAYER, turn := Who.player } rfl,
   runPaysPreRaiseStake.2.2.2.2 1 3 rfl⟩

/-- Claim C4 (code bug): the human side at 11 cumulative points can still
propose a raise.  `handlePlayerTruco` (and the Truco button guard) checks the
phase, the turn, the last raiser and the ladder, but never `scorePlayer`, so
from a state with `scorePlayer = 11` the proposal goes through.  The
computer's path, by contrast, is guarded: `validateAIMove` overrides a
`TRUCO` at score 11 into a safe action. -/
theorem playerTrucoAtElevenGoesThrough :
    handlePlayerTruco
        { scorePlayer := 11, scoreAI := 0, currentStakes := 1, lastTrucoPlayer := none,
          phase := GamePhase.PLAYER_TURN, turn := Who.player } =
      some { scorePlayer := 11, scoreAI := 0, currentStakes := 1, lastTrucoPlayer := none,
             phase := GamePhase.TRUCO_PROPOSAL_PLAYER, turn := Who.player } ∧
    validateAIMove { action := AIAction.TRUCO, cardIndex := none } 3 11
        GamePhase.PLAYER_TURN =
      { action := AIAction.PLAY, cardIndex := some 0 } := by
  exact ⟨rfl, rfl⟩

/-- Counterexample to C9: the computer side proposes a raise while it is
itself the recorded last raiser.  Concretely: the player proposes truco (3),
the computer counter-raises (stake 3, `lastTrucoPlayer = ai`), the player
accepts (stake 6, `lastTrucoPlayer = ai`, computer's turn) — a reachable
state — and from it `handleAIProposeTruco` goes through (it never inspects
`lastTrucoPlayer`), so the next proposal is made by the recorded last
raiser. -/
theorem aiSelfRaiseCounterexample :
    Reachable { scorePlayer := 0, scoreAI := 0, currentStakes := 6,
                lastTrucoPlayer := some Who.ai, phase := GamePhase.PLAYER_TURN,
                turn := Who.ai } ∧
    ({ scorePlayer := 0, scoreAI := 0, currentStakes := 6, lastTrucoPlayer := some Who.ai,
       phase := GamePhase.PLAYER_TURN, turn := Who.ai } : GS).lastTrucoPlayer =
      some Who.ai ∧
    handleAIProposeTruco
        { scorePlayer := 0, scoreAI := 0, currentStakes := 6, lastTrucoPlayer := some Who.ai,
          phase := GamePhase.PLAYER_TURN, turn := Who.ai } =
      some { scorePlayer := 0, scoreAI := 0, currentStakes := 6,
             lastTrucoPlayer := some Who.ai, phase := GamePhase.TRUCO_PROPOSAL_AI,
             turn := Who.player } ∧
    Step { scorePlayer := 0, scoreAI := 0, currentStakes := 6, lastTrucoPlayer := some Who.ai,
           phase := GamePhase.PLAYER_TURN, turn := Who.ai }
         { scorePlayer := 0, scoreAI := 0, currentStakes := 6, lastTrucoPlayer := some Who.ai,
           phase := GamePhase.TRUCO_PROPOSAL_AI, turn := Who.player } := by
  have st0 : Step initGS
      { scorePlayer := 0, scoreAI := 0, currentStakes := 1, lastTrucoPlayer := none,
        phase := GamePhase.PLAYER_TURN, turn := Who.player } :=
    Step.deal initGS rfl
  have st1 : Step
      { scorePlayer := 0, scoreAI := 0, currentStakes := 1, lastTrucoPlayer := none,
        phase := GamePhase.PLAYER_TURN, turn := Who.player }
      { scorePlayer := 0, scoreAI := 0, currentStakes := 1, lastTrucoPlayer := none,
        phase := GamePhase.TRUCO_PROPOSAL_PLAYER, turn := Who.player } :=
    Step.playerTruco _ _ rfl
  have st2 : Step
      { scorePlayer := 0, scoreAI := 0, currentStakes := 1, lastTrucoPlayer := none,
        phase := GamePhase.TRUCO_PROPOSAL_PLAYER, turn := Who.player }
      { scorePlayer := 0, scoreAI := 0, currentStakes := 3, lastTrucoPlayer := some Who.ai,
        phase := GamePhase.TRUCO_PROPOSAL_AI, turn := Who.player } :=
    Step.aiRespond _ AIResp.raise 3 rfl rfl
  have st3 : Step
      { scorePlayer := 0, scoreAI := 0, currentStakes := 3, lastTrucoPlayer := some Who.ai,
        phase := GamePhase.TRUCO_PROPOSAL_AI, turn := Who.player }
      { scorePlayer := 0, scoreAI := 0, currentStakes := 6, lastTrucoPlayer := some Who.ai,
        phase := GamePhase.PLAYER_TURN, turn := Who.ai } :=
    Step.playerRespond _ PlayerResp.accept rfl
  have st4 : Step
      { scorePlayer := 0, scoreAI := 0, currentStakes := 6, lastTrucoPlayer := some Who.ai,
        phase := GamePhase.PLAYER_TURN, turn := Who.ai }
      { scorePlayer := 0, scoreAI := 0, currentStakes := 6, lastTrucoPlayer := some Who.ai,
        phase := GamePhase.TRUCO_PROPOSAL_AI, turn := Who.player } :=
    Step.aiPropose _ _ rfl rfl (by decide) rfl
  have r3 : Reachable
      { scorePlayer := 0, scoreAI := 0, currentStakes := 6, lastTrucoPlayer := some Who.ai,
        phase := GamePhase.PLAYER_TURN, turn := Who.ai } :=
    (((Relation.ReflTransGen.refl.tail st0).tail st1).tail st2).tail st3
  exact ⟨r3, rfl, rfl, st4⟩

/-- Claim C9 (amended): the no-self-raise rule is enforced only on the human
side: whenever `handlePlayerTruco` lets a proposal through, the player was
not the recorded last raiser.  (The computer's propose path has no such
guard; see the counterexample.) -/
theorem noSelfRaisePlayerPathOnly :
    ∀ s s' : GS, handlePlayerTruco s = some s' → s.lastTrucoPlayer ≠ some Who.player :=
  fun _ _ h => (handlePlayerTruco_some h).2.2.1

/-- Witness for the amended C9 at a concrete successful proposal. -/
theorem noSelfRaisePlayerPathOnly_witness :
    ({ scorePlayer := 0, scoreAI := 0, currentStakes := 1, lastTrucoPlayer := none,
       phase := GamePhase.PLAYER_TURN, turn := Who.player } : GS).lastTrucoPlayer ≠
      some Who.player :=
  noSelfRaisePlayerPathOnly
    { scorePlayer := 0, scoreAI := 0, currentStakes := 1, lastTrucoPlayer := none,
      phase := GamePhase.PLAYER_TURN, turn := Who.player }
    { scorePlayer := 0, scoreAI := 0, currentStakes := 1, lastTrucoPlayer := none,
      phase := GamePhase.TRUCO_PROPOSAL_PLAYER, turn := Who.player } rfl

/-- Claim C7: the opponent decision is validated before application: a `PLAY`
whose card index is missing, negative or past the end of the hand is coerced
to index 0 (the first card) by `validateAIMove`, and `handleAIPlayCard` on an
out-of-range index plays and removes the first card of a nonempty hand
without failing; a `TRUCO`/`RAISE` returned while the computer's score is 11
or more is overridden to `ACCEPT` when it was responding to an outstanding
proposal (`TRUCO_PROPOSAL_PLAYER`) and to `PLAY` of card 0 otherwise (its own
turn to lead). -/
theorem aiMoveValidation :
    (∀ (m : AIMoveResponse) (len score : Nat) (ph : GamePhase),
       m.action = AIAction.PLAY → invalidCardIndex m.cardIndex len = true →
       validateAIMove m len score ph =
         { action := AIAction.PLAY, cardIndex := some 0 }) ∧
    (∀ (m : AIMoveResponse) (len score : Nat) (ph : GamePhase),
       11 ≤ score → (m.action = AIAction.TRUCO ∨ m.action = AIAction.RAISE) →
       (ph = GamePhase.TRUCO_PROPOSAL_PLAYER →
          (validateAIMove m len score ph).action = AIAction.ACCEPT) ∧
       (ph ≠ GamePhase.TRUCO_PROPOSAL_PLAYER →
          validateAIMove m len score ph =
            { action := AIAction.PLAY, cardIndex := some 0 })) ∧
    (∀ (i : Int) (c : CardData) (rest : List CardData) (table : List PlayedCard)
       (t : Who) (ph : GamePhase),
       table.length < 2 → invalidCardIndex (some i) (c :: rest).length = true →
       handleAIPlayCard i
           { aiHand := c :: rest, tableCards := table, turn := t, phase := ph } =
         some { aiHand := rest, tableCards := table ++ [⟨c, Who.ai, false⟩],
                turn := Who.player, phase := GamePhase.PLAYER_TURN }) := by
  refine ⟨?_, ?_, ?_⟩
  · intro m len score ph hact hidx
    obtain ⟨a, ci⟩ := m
    simp only at hact
    subst hact
    simp [validateAIMove, hidx]
  · intro m len score ph hsc hact
    obtain ⟨a, ci⟩ := m
    constructor <;> intro hph <;>
      rcases hact with h | h <;> simp only at h <;> subst h <;>
      simp [validateAIMove, hph, hsc]
  · intro i c rest table t ph htab hidx
    simp only [invalidCardIndex, Bool.or_eq_true, decide_eq_true_eq] at hidx
    have hnone : (if i < 0 then none else (c :: rest)[i.toNat]?) = (none : Option CardData) := by
      by_cases hi : i < 0
      · rw [if_pos hi]
      · rw [if_neg hi]
        apply List.getElem?_eq_none
        rcases hidx with h | h
        · omega
        · omega
    simp only [handleAIPlayCard]
    rw [if_neg (by omega), hnone]

/-- Witness for C7: an out-of-range play index is coerced to 0, a raise at
score 11 while responding becomes an accept, and `handleAIPlayCard` on index
7 of a one-card hand plays that card. -/
theorem aiMoveValidation_witness :
    validateAIMove { action := AIAction.PLAY, cardIndex := some 5 } 3 0
        GamePhase.PLAYER_TURN =
      { action := AIAction.PLAY, cardIndex := some 0 } ∧
    (validateAIMove { action := AIAction.RAISE, cardIndex := none } 3 11
        GamePhase.TRUCO_PROPOSAL_PLAYER).action = AIAction.ACCEPT ∧
    handleAIPlayCard 7
        { aiHand := [⟨Suit.clubs, Rank.three⟩], tableCards := [], turn := Who.ai,
          phase := GamePhase.AI_THINKING } =
      some { aiHand := [], tableCards := [⟨⟨Suit.clubs, Rank.three⟩, Who.ai, false⟩],
             turn := Who.player, phase := GamePhase.PLAYER_TURN } :=
  ⟨aiMoveValidation.1 { action := AIAction.PLAY, cardIndex := some 5 } 3 0
     GamePhase.PLAYER_TURN rfl (by decide),
   (aiMoveValidation.2.1 { action := AIAction.RAISE, cardIndex := none } 3 11
     GamePhase.TRUCO_PROPOSAL_PLAYER (by decide) (Or.inr rfl)).1 rfl,
   aiMoveValidation.2.2 7 ⟨Suit.clubs, Rank.three⟩ [] [] Who.ai GamePhase.AI_THINKING
     (by decide) (by decide)⟩

/-- The trick-resolution projection of `GameState`: the table, the per-trick
results, the current round counter, whose turn, and the vira. -/
structure TrickState where
  tableCards : List PlayedCard
  roundWinners : List (Option Winner)
  currentRound : Nat
  turn : Who
  vira : CardData
  deriving DecidableEq, Repr

/-- The state update of `resolveTrick` in `src/components/Game.tsx`: find
each side's played card on the table, score the trick with `determineWinner`,
record the result at slot `currentRound - 1`, clear the table, advance the
round counter, and set the next turn to the trick winner — or, on a draw, to
the side that played the first card of the trick (`tableCards[0].player`).
`none` models the source crashing on an empty table in the draw case (never
reached: `resolveTrick` fires only when the table holds 2 cards). -/
def resolveTrickUpdate (s : TrickState) : Option TrickState :=
  let pPlayed := s.tableCards.find? (fun c => c.player == Who.player)
  let aiPlayed := s.tableCards.find? (fun c => c.player == Who.ai)
  let roundWinner := determineWinner pPlayed aiPlayed s.vira
  let newRoundWinners := s.roundWinners.set (s.currentRound - 1) (some roundWinner)
  let nextTurn : Option Who :=
    match roundWinner with
    | Winner.draw => s.tableCards.head?.map (fun c => c.player)
    | Winner.side w => some w
  nextTurn.map fun nt =>
    { s with roundWinners := newRoundWinners, currentRound := s.currentRound + 1,
             tableCards := [], turn := nt }

/-- Claim C10: after every resolved trick the lead for the next trick is the
trick's winner, and on a draw it is the side that played the first card of
the drawn trick; the table is cleared and the round counter advances. -/
theorem trickLeadAfterResolution :
    ∀ (s : TrickState) (c1 c2 : PlayedCard), s.tableCards = [c1, c2] →
      ∃ s' : TrickState,
        resolveTrickUpdate s = some s' ∧
        s'.turn =
          (match determineWinner (s.tableCards.find? (fun c => c.player == Who.player))
              (s.tableCards.find? (fun c => c.player == Who.ai)) s.vira with
           | Winner.side w => w
           | Winner.draw => c1.player) ∧
        s'.tableCards = [] ∧ s'.currentRound = s.currentRound + 1 := by
  intro s c1 c2 h
  rcases hw : determineWinner (s.tableCards.find? (fun c => c.player == Who.player))
      (s.tableCards.find? (fun c => c.player == Who.ai)) s.vira with w | _
  · refine ⟨{ s with
        roundWinners := (s.roundWinners.set (s.currentRound - 1) (some (Winner.side w))),
        currentRound := s.currentRound + 1,
        tableCards := [], turn := w }, ?_, ?_, rfl, rfl⟩
    · simp only [resolveTrickUpdate, hw]
      rfl
    · simp [hw]
  · have hw2 := hw
    rw [h] at hw2
    refine ⟨{ s with
        roundWinners := (s.roundWinners.set (s.currentRound - 1) (some Winner.draw)),
        currentRound := s.currentRound + 1,
        tableCards := [], turn := c1.player }, ?_, ?_, rfl, rfl⟩
    · simp only [resolveTrickUpdate, h]
      rw [hw2]
      rfl
    · simp [hw]

/-- Witness for C10: resolving a concrete trick (player's 4 of diamonds
against the computer's 3 of clubs, vira 5 of spades) hands the lead to the
computer, which won the trick. -/
theorem trickLeadAfterResolution_witness :
    ∃ s' : TrickState,
      resolveTrickUpdate
          { tableCards := [⟨⟨Suit.diamonds, Rank.four⟩, Who.player, false⟩,
              ⟨⟨Suit.clubs, Rank.three⟩, Who.ai, false⟩],
            roundWinners := [none, none, none], currentRound := 1, turn := Who.player,
            vira := ⟨Suit.spades, Rank.five⟩ } = some s' ∧
      s'.turn =
        (match determineWinner
            (List.find? (fun c => c.player == Who.player)
              [⟨⟨Suit.diamonds, Rank.four⟩, Who.player, false⟩,
               ⟨⟨Suit.clubs, Rank.three⟩, Who.ai, false⟩])
            (List.find? (fun c => c.player == Who.ai)
              [⟨⟨Suit.diamonds, Rank.four⟩, Who.player, false⟩,
               ⟨⟨Suit.clubs, Rank.three⟩, Who.ai, false⟩])
            ⟨Suit.spades, Rank.five⟩ with
         | Winner.side w => w
         | Winner.draw => Who.player) ∧
      s'.tableCards = [] ∧ s'.currentRound = 2 :=
  trickLeadAfterResolution
    { tableCards := [⟨⟨Suit.diamonds, Rank.four⟩, Who.player, false⟩,
        ⟨⟨Suit.clubs, Rank.three⟩, Who.ai, false⟩],
      roundWinners := [none, none, none], currentRound := 1, turn := Who.player,
      vira := ⟨Suit.spades, Rank.five⟩ }
    ⟨⟨Suit.diamonds, Rank.four⟩, Who.player, false⟩
    ⟨⟨Suit.clubs, Rank.three⟩, Who.ai, false⟩ rfl
